import Mathlib

/-!
Verification of the docx-to-markdown conversion orchestrator.

Shallow embedding of the job lifecycle code in `server/server-simple.js`
(Express + socket.io backend), the web client `src/utils/apiClient.ts`
(`WebAPIClient`, `WebOnlyConverter`), the serverless adapter
`api/convert.js`, and the React stats context (`updateStats`).

Modelling conventions:
- `uuidv4()` is modelled as a fresh-name supply (a `Nat` counter threaded
  through the handlers); the uniqueness of generated identifiers is the
  modelling assumption corresponding to UUID freshness.
- The external conversion engine (the spawned MarkItDown python process,
  mammoth.js in the web-only path) is opaque per the design: its outcome
  for a given task is a parameter (`Except String ConvOk` or a
  `SpawnOutcome`), never computed.
- Wall-clock fields (`createdAt`) and the opaque `options` object stored on
  a job are omitted from `Job`: no modelled operation ever reads them.
-/

/-- Task status values, the union of the statuses used by the server job
store (`queued/processing/completed/failed`) and the client-side task
states (`pending/uploading/uploaded`). -/
inductive Status
  | pending
  | uploading
  | uploaded
  | queued
  | processing
  | completed
  | failed
  deriving DecidableEq, Repr

/-- Terminal states per the state machine: `completed` and `failed`. -/
def isTerminal : Status → Bool
  | .completed => true
  | .failed => true
  | _ => false

/-- Position of a status in the lifecycle ordering
`pending -> uploading -> uploaded -> queued -> processing -> {completed|failed}`.
The two terminal states share a rank: no trace contains both for one task. -/
def statusRank : Status → Nat
  | .pending => 0
  | .uploading => 1
  | .uploaded => 2
  | .queued => 3
  | .processing => 4
  | .completed => 5
  | .failed => 5

/-- Conversion metadata as produced by the engine
(`{title, word_count, char_count}`). -/
structure Metadata where
  title : String
  word_count : Nat
  char_count : Nat
  deriving DecidableEq, Repr

/-- Characters allowed inside the extension matched by the JavaScript
regular expression `\.[^/.]+$`: anything except `.` and `/`. -/
def isExtChar (c : Char) : Bool := c != '.' && c != '/'

/-- Model of `name.replace(/\.[^/.]+$/, '.md')` on the character list of
`name`. The regular expression can only match at the last dot of the
string, provided at least one character follows it and none of the
following characters is `.` or `/`; with no match the string is returned
unchanged. Implemented by scanning from the right. -/
def replaceFinalExtL (cs : List Char) : List Char :=
  let r := cs.reverse
  let ext := r.takeWhile isExtChar
  let rest := r.drop ext.length
  if ext.isEmpty then cs
  else if rest.head? = some '.' then rest.tail.reverse ++ ['.', 'm', 'd']
  else cs

/-- `String` wrapper for `replaceFinalExtL`, the server's
`file.originalName.replace(/\.[^/.]+$/, '.md')` (line 324 of
`server-simple.js`, line 592 of `apiClient.ts`). -/
def replaceFinalExt (s : String) : String :=
  String.mk (replaceFinalExtL s.data)

/-- Model of `name.replace(/\.[^/.]+$/, '')` (title computation of the
web-only converter): drop the final extension. -/
def stripFinalExtL (cs : List Char) : List Char :=
  let r := cs.reverse
  let ext := r.takeWhile isExtChar
  let rest := r.drop ext.length
  if ext.isEmpty then cs
  else if rest.head? = some '.' then rest.tail.reverse
  else cs



/-- One entry of the server's in-memory `jobs` map (`server-simple.js`
lines 328-338 and the mutations in `processConversion`). The `createdAt`
timestamp and the opaque `options` object are omitted: no modelled
operation reads them. -/
structure Job where
  jobId : Nat
  fileId : String
  inputPath : String
  outputPath : Option String
  originalName : String
  status : Status
  progress : Nat
  metadata : Option Metadata
  error : Option String
  deriving DecidableEq, Repr

/-- The `jobs` map, keyed by `jobId`; represented as the list of its
entries (insertion order). -/
abbrev JobStore := List Job

/-- `jobs.get(jobId)`. -/
def getJob (store : JobStore) (k : Nat) : Option Job :=
  List.find? (fun j => j.jobId == k) store

/-- `jobs.set(jobId, { ...jobs.get(jobId), ...fields })`: replace the entry
with key `k` by `f` applied to it, leaving every other entry unchanged. -/
def updateJob (store : JobStore) (k : Nat) (f : Job → Job) : JobStore :=
  List.map (fun j => if j.jobId = k then f j else j) store

/-- One element of the `files` array of the `POST /api/convert` body; the
caller obtained these from the upload endpoint. -/
structure FileRef where
  id : String
  filename : String
  originalName : String
  deriving DecidableEq, Repr

/-- One element of the `jobs` array returned by `POST /api/convert`. -/
structure JobHandle where
  fileId : String
  jobId : Nat
  status : Status
  deriving DecidableEq, Repr

/-- Payload of one `io.emit('conversion-progress', ...)` call. -/
structure ProgressEvent where
  fileId : String
  jobId : Nat
  status : Status
  progress : Nat
  outputPath : Option String
  metadata : Option Metadata
  error : Option String
  deriving DecidableEq, Repr

/-- The job record created for one file by the convert handler
(`server-simple.js` lines 322-338): status `queued`, progress 0, planned
output path `outputs/<fileId>-<name>.md` already stored. -/
def initJob (k : Nat) (f : FileRef) : Job :=
  { jobId := k
    fileId := f.id
    inputPath := "uploads/" ++ f.filename
    outputPath := some ("outputs/" ++ f.id ++ "-" ++ replaceFinalExt f.originalName)
    originalName := f.originalName
    status := .queued
    progress := 0
    metadata := none
    error := none }

/-- Job records created by the convert handler's loop, one per file, each
with a fresh `jobId` drawn from the uuid supply. -/
def initJobs : List FileRef → Nat → JobStore
  | [], _ => []
  | f :: fs, supply => initJob supply f :: initJobs fs (supply + 1)

/-- The `jobResults` handles accumulated by the convert handler's loop. -/
def mkHandles : List FileRef → Nat → List JobHandle
  | [], _ => []
  | f :: fs, supply => ⟨f.id, supply, .queued⟩ :: mkHandles fs (supply + 1)

/-- The `(jobId, fileId)` pairs in dispatch order: the arguments of the
`processConversion(jobId, file.id, ...)` calls issued by the loop. -/
def handlePairs : List FileRef → Nat → List (Nat × String)
  | [], _ => []
  | f :: fs, supply => (supply, f.id) :: handlePairs fs (supply + 1)

/-- The fresh job ids consumed by a batch of the given files. -/
def batchIds : List FileRef → Nat → List Nat
  | [], _ => []
  | _ :: fs, supply => supply :: batchIds fs (supply + 1)

/-- The initial `conversion-progress` event emitted inside the convert
handler's loop (`server-simple.js` lines 350-355). -/
def queuedEvent (fid : String) (k : Nat) : ProgressEvent :=
  ⟨fid, k, .queued, 0, none, none, none⟩

/-- Successful adapter outcome: `{outputPath, metadata}` as resolved by
`convertWithMarkItDown`. -/
structure ConvOk where
  outputPath : String
  metadata : Metadata
  deriving DecidableEq, Repr

/-- `POST /api/convert` (`server-simple.js` lines 311-372), up to and
including the creation of all job records and handles. `none` models a
missing or non-array `files` field. Dispatching of the created jobs is
modelled separately by `dispatchBatch`/`runBatch` (in the source the loop
interleaves creation and dispatch; each dispatch only touches its own
job's key, so the resulting store is the same). Returns the handles, the
created records, and the advanced uuid supply. -/
def convertHandler (body : Option (List FileRef)) (supply : Nat) :
    Except String (List JobHandle × JobStore × Nat) :=
  match body with
  | none => Except.error "No files provided for conversion"
  | some files =>
      if files.isEmpty then Except.error "No files provided for conversion"
      else Except.ok (mkHandles files supply, initJobs files supply, supply + files.length)

/-- The store mutation performed by `processConversion` before invoking
the adapter: status `processing`, progress 10. -/
def procMid (store : JobStore) (k : Nat) : JobStore :=
  updateJob store k (fun j => { j with status := .processing, progress := 10 })

/-- Net record transformation applied by `processConversion` once the
adapter settles: on success status `completed`, progress 100, engine
output path and metadata; on failure status `failed`, progress 0, error
message. -/
def stepTransform (eng : Except String ConvOk) (j : Job) : Job :=
  match eng with
  | .ok r => { j with status := .completed, progress := 100,
                      outputPath := some r.outputPath, metadata := some r.metadata }
  | .error e => { j with status := .failed, progress := 0, error := some e }

/-- `processConversion(jobId, fileId, ...)` (`server-simple.js` lines
201-269) for one job whose adapter invocation settles as `eng`: the final
store and the emitted `conversion-progress` events, in order. The thrown
error on the failure path is caught by the dispatch loop's `.catch` and
only logged, so it has no further effect. -/
def processConversion (store : JobStore) (k : Nat) (fid : String)
    (eng : Except String ConvOk) : JobStore × List ProgressEvent :=
  let st1 := procMid store k
  let ev1 : ProgressEvent := ⟨fid, k, .processing, 10, none, none, none⟩
  match eng with
  | .ok r =>
      let st2 := updateJob st1 k (fun j =>
        { j with status := .completed, progress := 100,
                 outputPath := some r.outputPath, metadata := some r.metadata })
      (st2, [ev1, ⟨fid, k, .completed, 100, some r.outputPath, some r.metadata, none⟩])
  | .error e =>
      let st2 := updateJob st1 k (fun j =>
        { j with status := .failed, progress := 0, error := some e })
      (st2, [ev1, ⟨fid, k, .failed, 0, none, none, some e⟩])

/-- Dispatch of a batch: run `processConversion` for each created job in
turn, with `oc k` the adapter outcome for job `k`. Returns the final
store and the list of every store state passed through (before each
dispatch, after the `processing` mutation, and the final store), for
stating store invariants at every point. -/
def dispatchBatch : JobStore → List (Nat × String) → (Nat → Except String ConvOk) →
    JobStore × List JobStore
  | st, [], _ => (st, [st])
  | st, (k, fid) :: rest, oc =>
      let stDone := (processConversion st k fid (oc k)).1
      let r := dispatchBatch stDone rest oc
      (r.1, st :: procMid st k :: r.2)

/-- Final job store of a batch submission whose per-job adapter outcomes
are given by `oc`. -/
def runBatch (files : List FileRef) (supply : Nat)
    (oc : Nat → Except String ConvOk) : JobStore :=
  (dispatchBatch (initJobs files supply) (handlePairs files supply) oc).1

/-- Parsed JSON printed by the temporary python script: either a success
object `{success:true, output_path, metadata}` or `{success:false, error}`. -/
inductive PyOutcome
  | ok (outputPath : String) (md : Metadata)
  | err (msg : String)
  deriving DecidableEq, Repr

/-- Observable behaviour of the spawned python process: either the
`close` event with an exit code, the parse of its stdout (`none` when
`JSON.parse` fails) and its stderr text, or the `error` event (process
failed to start). -/
inductive SpawnOutcome
  | closed (code : Int) (parsed : Option PyOutcome) (stderrText : String)
  | startFailed (msg : String)
  deriving DecidableEq, Repr

/-- Side effects performed by a `convertWithMarkItDown` run, in order. -/
inductive AdapterAction
  | unlinkTemp
  | resolved (r : ConvOk)
  | rejected (msg : String)
  deriving DecidableEq, Repr

def AdapterAction.isSettle : AdapterAction → Bool
  | .unlinkTemp => false
  | .resolved _ => true
  | .rejected _ => true

/-- `convertWithMarkItDown` (`server-simple.js` lines 102-198, duplicated
in `api/convert.js` lines 15-111) as a function of the spawned process's
outcome: the ordered list of side effects (temp-script unlink, promise
settlement) and the settled result. In both the `close` and the `error`
handler the source calls `fs.unlink(tempScriptPath)` before settling the
promise. -/
def convertWithMarkItDown (o : SpawnOutcome) : List AdapterAction × Except String ConvOk :=
  match o with
  | .startFailed m =>
      ([.unlinkTemp, .rejected ("Failed to start Python process: " ++ m)],
       .error ("Failed to start Python process: " ++ m))
  | .closed code parsed stderrText =>
      if code = 0 then
        match parsed with
        | some (.ok p md) => ([.unlinkTemp, .resolved ⟨p, md⟩], .ok ⟨p, md⟩)
        | some (.err m) => ([.unlinkTemp, .rejected m], .error m)
        | none =>
            ([.unlinkTemp, .rejected "Failed to parse conversion result"],
             .error "Failed to parse conversion result")
      else
        ([.unlinkTemp,
          .rejected ("Python process failed with code " ++ toString code ++ ": " ++ stderrText)],
         .error ("Python process failed with code " ++ toString code ++ ": " ++ stderrText))

/-- The `stats` object of the `GET /api/jobs` response. -/
structure JobsStats where
  total : Nat
  queued : Nat
  processing : Nat
  completed : Nat
  failed : Nat
  deriving DecidableEq, Repr

/-- `GET /api/jobs` (`server-simple.js` lines 418-435): the current job
list and stats computed by filtering it. -/
def jobsHandler (store : JobStore) : List Job × JobsStats :=
  (store,
   ⟨store.length,
    (store.filter (fun j => j.status == .queued)).length,
    (store.filter (fun j => j.status == .processing)).length,
    (store.filter (fun j => j.status == .completed)).length,
    (store.filter (fun j => j.status == .failed)).length⟩)

/-- `GET /api/status/:jobId` (`server-simple.js` lines 401-415). -/
def statusHandler (store : JobStore) (k : Nat) : Except (Nat × String) Job :=
  match getJob store k with
  | none => Except.error (404, "Job not found")
  | some j => Except.ok j

/-- The stats of the React conversion context (`updateStats`,
`ConversionContext`): computed by filtering the given task list. -/
structure CtxStats where
  total : Nat
  pending : Nat
  processing : Nat
  completed : Nat
  failed : Nat
  deriving DecidableEq, Repr

/-- A task as seen by the client-side code (`ConversionTask` of
`apiClient.ts` / the web-only converter): only the fields the modelled
operations read. -/
structure WTask where
  id : String
  fileName : String
  status : Status
  progress : Nat
  outputPath : Option String
  metadata : Option Metadata
  errorMessage : Option String
  deriving DecidableEq, Repr

/-- `updateStats` of the React conversion context (`part_000` lines
34-43): a pure projection of the task list. -/
def updateStats (tasks : List WTask) : CtxStats :=
  ⟨tasks.length,
   (tasks.filter (fun t => t.status == .pending)).length,
   (tasks.filter (fun t => t.status == .processing)).length,
   (tasks.filter (fun t => t.status == .completed)).length,
   (tasks.filter (fun t => t.status == .failed)).length⟩

/-- Number of maximal whitespace runs in the character list; the flag
records whether the previous character was whitespace. -/
def wsRuns : List Char → Bool → Nat
  | [], _ => 0
  | c :: cs, inWs =>
      if c.isWhitespace then (if inWs then 0 else 1) + wsRuns cs true
      else wsRuns cs false

/-- `markdownContent.split(/\s+/).length`, the web-only converter's word
count: splitting on k regex matches (here: maximal whitespace runs)
yields k+1 pieces, so `"".split(/\s+/).length` is 1. -/
def jsWordCount (s : String) : Nat := wsRuns s.data false + 1

/-- `WebOnlyConverter.convertFiles`' body for one task (`apiClient.ts`
lines 560-607). `hasFile` models `task.file` being present; `conv` is the
opaque outcome of `convertSingleFile` (the produced markdown text or a
thrown error message). Returns the task pushed to `updatedTasks` and the
ordered list of snapshots passed to `onProgress`. -/
def webOnlyConvertTask (task : WTask) (hasFile : Bool)
    (conv : Except String String) (outputDir : String) : WTask × List WTask :=
  let t1 := { task with status := .processing, progress := 10 }
  if !hasFile then
    let tf := { t1 with status := .failed, progress := 0,
                        errorMessage := some "File not available" }
    (tf, [t1, tf])
  else
    let t2 := { t1 with progress := 50 }
    match conv with
    | .ok content =>
        let md : Metadata :=
          ⟨String.mk (stripFinalExtL task.fileName.data),
           jsWordCount content, content.length⟩
        let t3 := { t2 with metadata := some md, progress := 90 }
        let t4 := { t3 with
          outputPath := some (outputDir ++ "/" ++ replaceFinalExt task.fileName) }
        let t5 := { t4 with status := .completed, progress := 100 }
        (t5, [t1, t2, t3, t5])
    | .error e =>
        let tf := { t2 with status := .failed, progress := 0, errorMessage := some e }
        (tf, [t1, t2, tf])

/-- The field invariant exactly as claimed: `outputPath` and `metadata`
set iff `completed`, `error` set iff `failed`. -/
def fieldInvariant (j : Job) : Bool :=
  (j.outputPath.isSome == (j.status == .completed)) &&
  (j.metadata.isSome == (j.status == .completed)) &&
  (j.error.isSome == (j.status == .failed))

/-- The invariant the server store actually maintains at every point:
`metadata` set iff `completed`, `error` set iff `failed`, and `outputPath`
always set (populated at creation with the planned destination). -/
def amendedInvariant (j : Job) : Bool :=
  (j.metadata.isSome == (j.status == .completed)) &&
  (j.error.isSome == (j.status == .failed)) &&
  j.outputPath.isSome

/-- The claimed field invariant on a client-side task. -/
def wInvariant (t : WTask) : Bool :=
  (t.outputPath.isSome == (t.status == .completed)) &&
  (t.metadata.isSome == (t.status == .completed)) &&
  (t.errorMessage.isSome == (t.status == .failed))

/-- A job still untouched by dispatch: as created by the convert handler. -/
def jobFresh (j : Job) : Bool :=
  j.status == .queued && j.metadata.isNone && j.error.isNone

/-- A multipart file as seen by the multer `fileFilter`. -/
structure UploadFile where
  originalname : String
  mimetype : String
  size : Nat
  deriving DecidableEq, Repr

/-- The `allowedMimes` whitelist of the upload configuration
(`server-simple.js` lines 79-91). -/
def allowedMimes : List String :=
  ["application/vnd.openxmlformats-officedocument.wordprocessingml.document",
   "application/vnd.openxmlformats-officedocument.presentationml.presentation",
   "application/vnd.openxmlformats-officedocument.spreadsheetml.sheet",
   "application/pdf",
   "text/html",
   "text/plain",
   "image/jpeg",
   "image/png",
   "image/gif",
   "audio/mpeg",
   "audio/wav"]

/-- One element of the upload response's `files` array
(`server-simple.js` lines 290-298). The response `id` and the storage
filename prefix are two `uuidv4()` calls in the source; the model draws
both from the one supply. -/
structure UploadedRec where
  id : String
  originalName : String
  filename : String
  size : Nat
  mimetype : String
  deriving DecidableEq, Repr

/-- The ways multer can abort a multipart upload before the route handler
runs, per the configuration of lines 72-99: exceeding the
`upload.array('files', 10)` file-count bound (`MulterError
LIMIT_UNEXPECTED_FILE`), a `fileFilter` rejection (a plain
`Error('Unsupported file type')`), and exceeding the 100MB
`limits.fileSize` bound (`MulterError LIMIT_FILE_SIZE`). -/
inductive UploadError
  | limitUnexpectedFile
  | unsupportedType
  | limitFileSize
  deriving DecidableEq, Repr

/-- The error-handling middleware (`server-simple.js` lines 457-467):
only `MulterError LIMIT_FILE_SIZE` gets the dedicated
`400 File too large` response; every other error — the count bound's
`MulterError` of a different code and the filter's plain `Error` — falls
through to `500 Internal server error`. -/
def uploadErrorResponse : UploadError → Nat × String
  | .limitFileSize => (400, "File too large")
  | .limitUnexpectedFile => (500, "Internal server error")
  | .unsupportedType => (500, "Internal server error")

/-- Multer's processing of the multipart files under the configuration of
lines 72-99 and `upload.array('files', 10)` (line 284), with `remaining`
the file-count allowance left. Files are handled in order: a file beyond
the count bound aborts with `LIMIT_UNEXPECTED_FILE`; otherwise
`fileFilter` runs (lines 77-98; an unsupported mimetype aborts the whole
request); then the accepted file is streamed to disk, aborting with
`LIMIT_FILE_SIZE` when it exceeds the 100MB `limits.fileSize` bound
(lines 74-76). Any abort fails the entire request. -/
def multerProcess : List UploadFile → Nat → Nat → Except UploadError (List UploadedRec × Nat)
  | [], n, _ => Except.ok ([], n)
  | f :: fs, n, remaining =>
      if remaining = 0 then Except.error UploadError.limitUnexpectedFile
      else if allowedMimes.contains f.mimetype then
        if f.size ≤ 100 * 1024 * 1024 then
          match multerProcess fs (n + 1) (remaining - 1) with
          | .ok (rs, n') =>
              Except.ok
                (⟨toString n, f.originalname, toString n ++ "-" ++ f.originalname,
                  f.size, f.mimetype⟩ :: rs, n')
          | .error e => Except.error e
        else Except.error UploadError.limitFileSize
      else Except.error UploadError.unsupportedType

/-- `POST /api/upload` (`server-simple.js` lines 284-308) behind
`upload.array('files', 10)` and the error-handling middleware: a multer
abort is mapped to its HTTP response by `uploadErrorResponse`; an empty
accepted list yields `400 No files uploaded`. -/
def uploadHandler (files : List UploadFile) (supply : Nat) :
    Except (Nat × String) (List UploadedRec × Nat) :=
  match multerProcess files supply 10 with
  | .error e => Except.error (uploadErrorResponse e)
  | .ok (recs, n) =>
      if recs.isEmpty then Except.error (400, "No files uploaded")
      else Except.ok (recs, n)

/-- The `files` entry sent to `POST /api/convert` for one uploaded file. -/
def toFileRef (r : UploadedRec) : FileRef :=
  ⟨r.id, r.filename, r.originalName⟩

/-- The full submission path a browser batch takes: `POST /api/upload`
followed by `POST /api/convert` on the uploaded descriptors. -/
def submitPipeline (files : List UploadFile) (supply : Nat) :
    Except (Nat × String) (List JobHandle × JobStore × Nat) :=
  match uploadHandler files supply with
  | .error e => Except.error e
  | .ok (recs, n) =>
      match convertHandler (some (recs.map toFileRef)) n with
      | .error m => Except.error (500, m)
      | .ok r => Except.ok r

/-- socket.io server state relevant to delivery: the connected sockets
and the room memberships maintained by `join-file`/`leave-file`. -/
structure NetState where
  connected : List Nat
  rooms : List (Nat × String)
  deriving DecidableEq, Repr

/-- `io.emit('conversion-progress', ev)`: the event is delivered to every
connected socket; room membership is not consulted. -/
def ioEmit (st : NetState) (ev : ProgressEvent) : List (Nat × ProgressEvent) :=
  st.connected.map (fun sid => (sid, ev))

/-- The `join-file` handler (`server-simple.js` lines 446-448): the socket
joins room `file-<fileId>` and nothing is emitted to it, regardless of the
current job store. Returns the new room list and the events sent to the
joining socket. -/
def handleJoinFile (store : JobStore) (rooms : List (Nat × String))
    (sid : Nat) (fid : String) : List (Nat × String) × List ProgressEvent :=
  ((sid, "file-" ++ fid) :: rooms, [])

/-- The client's `conversion-progress` listener (`apiClient.ts` lines
80-96): look up the callback registered under the event's `fileId` and
invoke only it. Callbacks are modelled by tags; the result is the tag of
the invoked callback, `none` when no callback is registered for that id. -/
def clientDispatch (callbacks : List (String × Nat)) (ev : ProgressEvent) : Option Nat :=
  (callbacks.find? (fun p => p.1 == ev.fileId)).map (fun p => p.2)

/-- Per-task delivery order check on a sequence of progress events:
consecutive events have non-decreasing status rank, and progress is
non-decreasing as long as the later event is non-terminal. -/
def eventChainOk : List ProgressEvent → Bool
  | [] => true
  | [_] => true
  | e1 :: e2 :: rest =>
      (decide (statusRank e1.status ≤ statusRank e2.status) &&
       (isTerminal e2.status || decide (e1.progress ≤ e2.progress))) &&
      eventChainOk (e2 :: rest)

/-- Sample metadata for concrete runs. -/
def sampleMd : Metadata := ⟨"report", 2, 11⟩

/-- Sample successful adapter result. -/
def sampleConv : ConvOk := ⟨"outputs/f1-report.md", sampleMd⟩

/-- Sample uploaded-file reference. -/
def fileA : FileRef := ⟨"f1", "u1-report.docx", "report.docx"⟩

/-- A second sample reference. -/
def fileB : FileRef := ⟨"f2", "u2-notes.docx", "notes.docx"⟩

/-- A two-file batch. -/
def sampleBatch : List FileRef := [fileA, fileB]

/-- Adapter outcomes where job 0 succeeds and every other job fails. -/
def mixedOutcome : Nat → Except String ConvOk :=
  fun k => if k = 0 then Except.ok sampleConv else Except.error "Conversion failed"

/-- A completed job record, as left in the store by a successful run. -/
def terminalJob : Job :=
  { jobId := 0
    fileId := "f1"
    inputPath := "uploads/u1-report.docx"
    outputPath := some "outputs/f1-report.md"
    originalName := "report.docx"
    status := .completed
    progress := 100
    metadata := some sampleMd
    error := none }

/-- A store retaining only `terminalJob`. -/
def terminalStore : JobStore := [terminalJob]

/-- A freshly created client-side task (no output, metadata or error). -/
def freshWTask : WTask := ⟨"t1", "doc.docx", .pending, 0, none, none, none⟩

/-- The `.docx` mimetype. -/
def docxMime : String :=
  "application/vnd.openxmlformats-officedocument.wordprocessingml.document"

/-- A supported upload. -/
def goodFile : UploadFile := ⟨"report.docx", docxMime, 10⟩

/-- An upload with an unsupported mimetype. -/
def badFile : UploadFile := ⟨"bad.xyz", "application/xyz", 5⟩

/-- The spec's scenario batch: one supported file, one unsupported. -/
def mixedUpload : List UploadFile := [goodFile, badFile]

/-- Whether an `Except` result is a success. -/
def isOkE {ε α : Type} : Except ε α → Bool
  | .ok _ => true
  | .error _ => false

/- ------------------------------------------------------------------ -/
/-  Theorems                                                           -/
/- ------------------------------------------------------------------ -/

theorem takeWhile_append_of_all {p : Char → Bool} {l₁ l₂ : List Char} {b : Char}
    (h₁ : ∀ a ∈ l₁, p a = true) (hb : p b = false) :
    (l₁ ++ b :: l₂).takeWhile p = l₁ := by
  induction l₁ with
  | nil => simp [List.takeWhile, hb]
  | cons a l ih =>
      have ha : p a = true := h₁ a (by simp)
      simp only [List.cons_append, List.takeWhile, ha]
      have := ih (fun x hx => h₁ x (by simp [hx]))
      simp [this]

/-- Core correctness of the extension replacement: appending `.ext` (with
`ext` nonempty and free of `.` and `/`) to any base name and replacing the
final extension yields the base name followed by `.md`. -/
theorem replaceFinalExtL_append (base ext : List Char)
    (hne : ext ≠ []) (hext : ∀ c ∈ ext, isExtChar c = true) :
    replaceFinalExtL (base ++ '.' :: ext) = base ++ ['.', 'm', 'd'] := by
  have hdot : isExtChar '.' = false := by decide
  have hrev : (base ++ '.' :: ext).reverse = ext.reverse ++ '.' :: base.reverse := by
    simp
  have hall : ∀ a ∈ ext.reverse, isExtChar a = true := by
    intro a ha
    exact hext a (List.mem_reverse.mp ha)
  have htw : ((base ++ '.' :: ext).reverse).takeWhile isExtChar = ext.reverse := by
    rw [hrev]
    exact takeWhile_append_of_all hall hdot
  have hdrop : ((base ++ '.' :: ext).reverse).drop ext.reverse.length
      = '.' :: base.reverse := by
    rw [hrev]
    exact List.drop_left ext.reverse ('.' :: base.reverse)
  have hemp : ext.reverse.isEmpty = false := by
    cases h : ext.reverse with
    | nil => exact absurd (by simpa using congrArg List.reverse h) hne
    | cons a l => simp
  unfold replaceFinalExtL
  simp only [htw, hdrop, hemp]
  simp

theorem stripFinalExtL_append (base ext : List Char)
    (hne : ext ≠ []) (hext : ∀ c ∈ ext, isExtChar c = true) :
    stripFinalExtL (base ++ '.' :: ext) = base := by
  have hdot : isExtChar '.' = false := by decide
  have hrev : (base ++ '.' :: ext).reverse = ext.reverse ++ '.' :: base.reverse := by
    simp
  have hall : ∀ a ∈ ext.reverse, isExtChar a = true := by
    intro a ha
    exact hext a (List.mem_reverse.mp ha)
  have htw : ((base ++ '.' :: ext).reverse).takeWhile isExtChar = ext.reverse := by
    rw [hrev]
    exact takeWhile_append_of_all hall hdot
  have hdrop : ((base ++ '.' :: ext).reverse).drop ext.reverse.length
      = '.' :: base.reverse := by
    rw [hrev]
    exact List.drop_left ext.reverse ('.' :: base.reverse)
  have hemp : ext.reverse.isEmpty = false := by
    cases h : ext.reverse with
    | nil => exact absurd (by simpa using congrArg List.reverse h) hne
    | cons a l => simp
  unfold stripFinalExtL
  simp only [htw, hdrop, hemp]
  simp

theorem stepTransform_jobId (eng : Except String ConvOk) (j : Job) :
    (stepTransform eng j).jobId = j.jobId := by
  cases eng <;> rfl

theorem stepTransform_idem (eng : Except String ConvOk) (j : Job) :
    stepTransform eng (stepTransform eng j) = stepTransform eng j := by
  cases eng <;> rfl

theorem stepTransform_terminal (eng : Except String ConvOk) (j : Job) :
    isTerminal (stepTransform eng j).status = true := by
  cases eng <;> rfl

theorem updateJob_updateJob (st : JobStore) (k : Nat) (f g : Job → Job)
    (hf : ∀ j, (f j).jobId = j.jobId) :
    updateJob (updateJob st k f) k g = updateJob st k (fun j => g (f j)) := by
  unfold updateJob
  rw [List.map_map]
  have hfun : ((fun j => if j.jobId = k then g j else j) ∘
      (fun j => if j.jobId = k then f j else j))
      = fun j => if j.jobId = k then g (f j) else j := by
    funext j
    by_cases h : j.jobId = k
    · simp [Function.comp, h, hf j]
    · simp [Function.comp, h]
  rw [hfun]

theorem processConversion_fst (st : JobStore) (k : Nat) (fid : String)
    (eng : Except String ConvOk) :
    (processConversion st k fid eng).1 = updateJob st k (stepTransform eng) := by
  cases eng with
  | ok r =>
      show updateJob (procMid st k) k _ = _
      unfold procMid
      rw [updateJob_updateJob]
      · rfl
      · intro j
        rfl
  | error e =>
      show updateJob (procMid st k) k _ = _
      unfold procMid
      rw [updateJob_updateJob]
      · rfl
      · intro j
        rfl

theorem dispatchBatch_fst (oc : Nat → Except String ConvOk) :
    ∀ (pairs : List (Nat × String)) (st : JobStore),
      (dispatchBatch st pairs oc).1 =
        st.map (fun j =>
          if j.jobId ∈ pairs.map Prod.fst then stepTransform (oc j.jobId) j else j) := by
  intro pairs
  induction pairs with
  | nil =>
      intro st
      simp [dispatchBatch]
  | cons p rest ih =>
      intro st
      obtain ⟨k, fid⟩ := p
      show (dispatchBatch ((processConversion st k fid (oc k)).1) rest oc).1 = _
      rw [processConversion_fst, ih]
      unfold updateJob
      rw [List.map_map]
      congr 1
      funext j
      by_cases h : j.jobId = k
      · by_cases hm : k ∈ rest.map Prod.fst
        · simp [Function.comp, h, hm, stepTransform_jobId, stepTransform_idem,
                List.mem_cons]
        · simp [Function.comp, h, hm, stepTransform_jobId, List.mem_cons]
      · by_cases hm : j.jobId ∈ rest.map Prod.fst
        · simp [Function.comp, h, hm, List.mem_cons]
        · simp [Function.comp, h, hm, List.mem_cons]

theorem handlePairs_fst (files : List FileRef) : ∀ supply,
    (handlePairs files supply).map Prod.fst = batchIds files supply := by
  induction files with
  | nil => intro s; rfl
  | cons f fs ih => intro s; simp [handlePairs, batchIds, ih]

theorem mkHandles_ids (files : List FileRef) : ∀ supply,
    (mkHandles files supply).map (fun h => h.jobId) = batchIds files supply := by
  induction files with
  | nil => intro s; rfl
  | cons f fs ih => intro s; simp [mkHandles, batchIds, ih]

theorem batchIds_lb (files : List FileRef) : ∀ supply x,
    x ∈ batchIds files supply → supply ≤ x := by
  induction files with
  | nil => intro s x h; simp [batchIds] at h
  | cons f fs ih =>
      intro s x h
      simp only [batchIds, List.mem_cons] at h
      rcases h with h | h
      · omega
      · have := ih (s + 1) x h
        omega

theorem batchIds_nodup (files : List FileRef) : ∀ supply,
    (batchIds files supply).Nodup := by
  induction files with
  | nil => intro s; simp [batchIds]
  | cons f fs ih =>
      intro s
      rw [batchIds, List.nodup_cons]
      refine ⟨fun hmem => ?_, ih (s + 1)⟩
      have := batchIds_lb fs (s + 1) s hmem
      omega

theorem batchIds_mem (files : List FileRef) : ∀ supply i,
    i < files.length → supply + i ∈ batchIds files supply := by
  induction files with
  | nil => intro s i h; simp at h
  | cons f fs ih =>
      intro s i h
      cases i with
      | zero => simp [batchIds]
      | succ i =>
          have hrw : s + (i + 1) = (s + 1) + i := by omega
          rw [batchIds, hrw, List.mem_cons]
          exact Or.inr (ih (s + 1) i (by simpa using h))

theorem initJobs_length (files : List FileRef) : ∀ supply,
    (initJobs files supply).length = files.length := by
  induction files with
  | nil => intro s; rfl
  | cons f fs ih => intro s; simp [initJobs, ih]

theorem mkHandles_length (files : List FileRef) : ∀ supply,
    (mkHandles files supply).length = files.length := by
  induction files with
  | nil => intro s; rfl
  | cons f fs ih => intro s; simp [mkHandles, ih]

theorem getJob_map_initJobs (F : Job → Job) (hF : ∀ j, (F j).jobId = j.jobId) :
    ∀ (files : List FileRef) (supply i : Nat) (f : FileRef),
      files.get? i = some f →
      getJob ((initJobs files supply).map F) (supply + i)
        = some (F (initJob (supply + i) f)) := by
  intro files
  induction files with
  | nil => intro s i f h; simp at h
  | cons f0 fs ih =>
      intro s i f h
      cases i with
      | zero =>
          have hf : f0 = f := by simpa using h
          subst hf
          show List.find? _ (F (initJob s f0) :: (initJobs fs (s + 1)).map F)
              = some (F (initJob (s + 0) f0))
          have hid : ((F (initJob s f0)).jobId == s + 0) = true := by
            rw [hF]
            simp [initJob]
          simp only [List.find?_cons, hid]
          simp
      | succ i =>
          have hid : ((F (initJob s f0)).jobId == s + (i + 1)) = false := by
            rw [hF]
            simp only [initJob]
            simp only [beq_eq_false_iff_ne, ne_eq]
            omega
          show List.find? _ (F (initJob s f0) :: (initJobs fs (s + 1)).map F)
              = some (F (initJob (s + (i + 1)) f))
          simp only [List.find?_cons, hid]
          have hrw : s + (i + 1) = (s + 1) + i := by omega
          rw [hrw]
          exact ih (s + 1) i f (by simpa using h)

theorem jobFresh_spec (j : Job) (h : jobFresh j = true) :
    j.status = .queued ∧ j.metadata = none ∧ j.error = none := by
  simp only [jobFresh, Bool.and_eq_true, beq_iff_eq, Option.isNone_iff_eq_none] at h
  exact ⟨h.1.1, h.1.2, h.2⟩

theorem amendedInvariant_output (j : Job) (h : amendedInvariant j = true) :
    j.outputPath.isSome = true := by
  simp only [amendedInvariant, Bool.and_eq_true] at h
  exact h.2

theorem procSet_inv (j : Job) (hfresh : jobFresh j = true)
    (hinv : amendedInvariant j = true) :
    amendedInvariant { j with status := Status.processing, progress := 10 } = true := by
  obtain ⟨h1, h2, h3⟩ := jobFresh_spec j hfresh
  have h4 := amendedInvariant_output j hinv
  simp [amendedInvariant, h2, h3, h4]

theorem stepTransform_inv (eng : Except String ConvOk) (j : Job)
    (hfresh : jobFresh j = true) (hinv : amendedInvariant j = true) :
    amendedInvariant (stepTransform eng j) = true := by
  obtain ⟨h1, h2, h3⟩ := jobFresh_spec j hfresh
  have h4 := amendedInvariant_output j hinv
  cases eng with
  | ok r => simp [stepTransform, amendedInvariant, h2, h3]
  | error e => simp [stepTransform, amendedInvariant, h2, h3, h4]

theorem dispatch_trace_invariant (oc : Nat → Except String ConvOk) :
    ∀ (pairs : List (Nat × String)) (st : JobStore),
      (∀ j ∈ st, amendedInvariant j = true) →
      (∀ j ∈ st, j.jobId ∈ pairs.map Prod.fst → jobFresh j = true) →
      (pairs.map Prod.fst).Nodup →
      ∀ s ∈ (dispatchBatch st pairs oc).2, ∀ j ∈ s, amendedInvariant j = true := by
  intro pairs
  induction pairs with
  | nil =>
      intro st hP hQ hnd s hs j hj
      simp only [dispatchBatch, List.mem_singleton] at hs
      subst hs
      exact hP j hj
  | cons p rest ih =>
      intro st hP hQ hnd s hs j hj
      obtain ⟨k, fid⟩ := p
      simp only [dispatchBatch, List.mem_cons] at hs
      have hknotrest : k ∉ rest.map Prod.fst := by
        simp only [List.map_cons, List.nodup_cons] at hnd
        exact hnd.1
      have hndrest : (rest.map Prod.fst).Nodup := by
        simp only [List.map_cons, List.nodup_cons] at hnd
        exact hnd.2
      rcases hs with hs | hs | hs
      · subst hs
        exact hP j hj
      · subst hs
        unfold procMid updateJob at hj
        rw [List.mem_map] at hj
        obtain ⟨j₀, hj₀, rfl⟩ := hj
        by_cases hk : j₀.jobId = k
        · simp only [hk, if_pos rfl]
          exact procSet_inv j₀
            (hQ j₀ hj₀ (by simp [hk])) (hP j₀ hj₀)
        · simp only [if_neg hk]
          exact hP j₀ hj₀
      · have hdone : (processConversion st k fid (oc k)).1
            = updateJob st k (stepTransform (oc k)) := processConversion_fst st k fid (oc k)
        refine ih ((processConversion st k fid (oc k)).1) ?_ ?_ hndrest s hs j hj
        · intro j' hj'
          rw [hdone] at hj'
          unfold updateJob at hj'
          rw [List.mem_map] at hj'
          obtain ⟨j₀, hj₀, rfl⟩ := hj'
          by_cases hk : j₀.jobId = k
          · simp only [hk, if_pos rfl]
            exact stepTransform_inv (oc k) j₀
              (hQ j₀ hj₀ (by simp [hk])) (hP j₀ hj₀)
          · simp only [if_neg hk]
            exact hP j₀ hj₀
        · intro j' hj' hjid
          rw [hdone] at hj'
          unfold updateJob at hj'
          rw [List.mem_map] at hj'
          obtain ⟨j₀, hj₀, rfl⟩ := hj'
          by_cases hk : j₀.jobId = k
          · exfalso
            apply hknotrest
            have : (if j₀.jobId = k then stepTransform (oc k) j₀ else j₀).jobId = k := by
              rw [if_pos hk, stepTransform_jobId, hk]
            rw [this] at hjid
            exact hjid
          · simp only [if_neg hk] at hjid ⊢
            exact hQ j₀ hj₀ (by simp [hjid])

theorem initJobs_entry (files : List FileRef) : ∀ supply j, j ∈ initJobs files supply →
    amendedInvariant j = true ∧ jobFresh j = true := by
  induction files with
  | nil => intro s j h; simp [initJobs] at h
  | cons f fs ih =>
      intro s j h
      rw [initJobs, List.mem_cons] at h
      rcases h with rfl | h
      · exact ⟨rfl, rfl⟩
      · exact ih (s + 1) j h

theorem counts_partition (store : List Job)
    (h : ∀ j ∈ store, j.status = .queued ∨ j.status = .processing ∨
        j.status = .completed ∨ j.status = .failed) :
    store.length = (store.filter (fun j => j.status == Status.queued)).length
      + (store.filter (fun j => j.status == Status.processing)).length
      + (store.filter (fun j => j.status == Status.completed)).length
      + (store.filter (fun j => j.status == Status.failed)).length := by
  induction store with
  | nil => rfl
  | cons j js ih =>
      have hj := h j (by simp)
      have hrest := ih (fun j' hj' => h j' (by simp [hj']))
      rcases hj with h1 | h1 | h1 | h1 <;>
        simp [List.filter_cons, h1, hrest] <;> omega

theorem multerProcess_any_error : ∀ (files : List UploadFile) (supply remaining : Nat),
    (∃ f ∈ files, allowedMimes.contains f.mimetype = false) →
    ∃ e, multerProcess files supply remaining = Except.error e := by
  intro files
  induction files with
  | nil =>
      intro s remaining h
      obtain ⟨f, hf, _⟩ := h
      simp at hf
  | cons f0 fs ih =>
      intro s remaining h
      by_cases hr0 : remaining = 0
      · exact ⟨UploadError.limitUnexpectedFile, by simp [multerProcess, hr0]⟩
      by_cases c0 : allowedMimes.contains f0.mimetype = true
      · obtain ⟨f, hf, hbad⟩ := h
        have hffs : f ∈ fs := by
          rcases List.mem_cons.mp hf with rfl | hm
          · rw [c0] at hbad
            exact absurd hbad (by simp)
          · exact hm
        by_cases sz0 : f0.size ≤ 100 * 1024 * 1024
        · obtain ⟨e, he⟩ := ih (s + 1) (remaining - 1) ⟨f, hffs, hbad⟩
          refine ⟨e, ?_⟩
          simp only [multerProcess, hr0, if_false, c0, if_true, sz0, he]
        · refine ⟨UploadError.limitFileSize, ?_⟩
          simp only [multerProcess, hr0, if_false, c0, if_true, sz0]
      · have c0' : allowedMimes.contains f0.mimetype = false := by
          cases hcc : allowedMimes.contains f0.mimetype
          · rfl
          · exact absurd hcc c0
        refine ⟨UploadError.unsupportedType, ?_⟩
        unfold multerProcess
        rw [if_neg hr0, c0']
        simp

theorem multerProcess_unsupported : ∀ (files : List UploadFile) (supply remaining : Nat),
    files.length ≤ remaining →
    (∀ f ∈ files, f.size ≤ 100 * 1024 * 1024) →
    (∃ f ∈ files, allowedMimes.contains f.mimetype = false) →
    multerProcess files supply remaining = Except.error UploadError.unsupportedType := by
  intro files
  induction files with
  | nil =>
      intro s remaining _ _ h
      obtain ⟨f, hf, _⟩ := h
      simp at hf
  | cons f0 fs ih =>
      intro s remaining hlen hsize h
      have hr0 : ¬ remaining = 0 := by
        simp at hlen
        omega
      by_cases c0 : allowedMimes.contains f0.mimetype = true
      · obtain ⟨f, hf, hbad⟩ := h
        have hffs : f ∈ fs := by
          rcases List.mem_cons.mp hf with rfl | hm
          · rw [c0] at hbad
            exact absurd hbad (by simp)
          · exact hm
        have sz0 := hsize f0 (by simp)
        have he := ih (s + 1) (remaining - 1)
          (by simp at hlen; omega)
          (fun f hf => hsize f (by simp [hf]))
          ⟨f, hffs, hbad⟩
        simp only [multerProcess, hr0, if_false, c0, if_true, sz0, he]
      · have c0' : allowedMimes.contains f0.mimetype = false := by
          cases hcc : allowedMimes.contains f0.mimetype
          · rfl
          · exact absurd hcc c0
        unfold multerProcess
        rw [if_neg hr0, c0']
        simp

theorem multerProcess_oversize : ∀ (files : List UploadFile) (supply remaining : Nat),
    files.length ≤ remaining →
    (∀ f ∈ files, allowedMimes.contains f.mimetype = true) →
    (∃ f ∈ files, ¬ f.size ≤ 100 * 1024 * 1024) →
    multerProcess files supply remaining = Except.error UploadError.limitFileSize := by
  intro files
  induction files with
  | nil =>
      intro s remaining _ _ h
      obtain ⟨f, hf, _⟩ := h
      simp at hf
  | cons f0 fs ih =>
      intro s remaining hlen hmime h
      have hr0 : ¬ remaining = 0 := by
        simp at hlen
        omega
      have c0 := hmime f0 (by simp)
      by_cases sz0 : f0.size ≤ 100 * 1024 * 1024
      · obtain ⟨f, hf, hbig⟩ := h
        have hffs : f ∈ fs := by
          rcases List.mem_cons.mp hf with rfl | hm
          · exact absurd sz0 hbig
          · exact hm
        have he := ih (s + 1) (remaining - 1)
          (by simp at hlen; omega)
          (fun f hf => hmime f (by simp [hf]))
          ⟨f, hffs, hbig⟩
        simp only [multerProcess, hr0, if_false, c0, if_true, sz0, he]
      · simp only [multerProcess, hr0, if_false, c0, if_true, sz0]

theorem multerProcess_overcount : ∀ (files : List UploadFile) (supply remaining : Nat),
    remaining < files.length →
    (∀ f ∈ files, allowedMimes.contains f.mimetype = true) →
    (∀ f ∈ files, f.size ≤ 100 * 1024 * 1024) →
    multerProcess files supply remaining
      = Except.error UploadError.limitUnexpectedFile := by
  intro files
  induction files with
  | nil =>
      intro s remaining hlen _ _
      simp at hlen
  | cons f0 fs ih =>
      intro s remaining hlen hmime hsize
      by_cases hr0 : remaining = 0
      · simp [multerProcess, hr0]
      · have c0 := hmime f0 (by simp)
        have sz0 := hsize f0 (by simp)
        have he := ih (s + 1) (remaining - 1)
          (by simp at hlen; omega)
          (fun f hf => hmime f (by simp [hf]))
          (fun f hf => hsize f (by simp [hf]))
        simp only [multerProcess, hr0, if_false, c0, if_true, sz0, he]

theorem multerProcess_good : ∀ (files : List UploadFile) (supply remaining : Nat),
    files.length ≤ remaining →
    (∀ f ∈ files, allowedMimes.contains f.mimetype = true) →
    (∀ f ∈ files, f.size ≤ 100 * 1024 * 1024) →
    ∃ recs, multerProcess files supply remaining
        = Except.ok (recs, supply + files.length) ∧
      recs.length = files.length := by
  intro files
  induction files with
  | nil =>
      intro s remaining _ _ _
      exact ⟨[], by simp [multerProcess], rfl⟩
  | cons f0 fs ih =>
      intro s remaining hlen hmime hsize
      have hr0 : ¬ remaining = 0 := by
        simp at hlen
        omega
      obtain ⟨recs, hr, hl⟩ := ih (s + 1) (remaining - 1)
        (by simp at hlen; omega)
        (fun f hf => hmime f (by simp [hf]))
        (fun f hf => hsize f (by simp [hf]))
      have c0 := hmime f0 (by simp)
      have sz0 := hsize f0 (by simp)
      refine ⟨⟨toString s, f0.originalname, toString s ++ "-" ++ f0.originalname,
        f0.size, f0.mimetype⟩ :: recs, ?_, by simp [hl]⟩
      simp only [multerProcess, hr0, if_false, c0, if_true, sz0, hr]
      have harith : s + 1 + fs.length = s + (fs.length + 1) := by omega
      simp [harith]

/-- Claim C7: the computed output name replaces only the final extension
with `.md`: for any base name and any final extension (nonempty, free of
`.` and `/`), `replace(/\.[^/.]+$/, '.md')` maps `base.ext` to `base.md`;
in particular `"X.docx" -> "X.md"` and `"a.b.docx" -> "a.b.md"`. -/
theorem C7_output_name_roundtrip (base ext : List Char)
    (hne : ext ≠ []) (hext : ∀ c ∈ ext, isExtChar c = true) :
    replaceFinalExtL (base ++ '.' :: ext) = base ++ ['.', 'm', 'd'] ∧
    replaceFinalExt "X.docx" = "X.md" ∧
    replaceFinalExt "a.b.docx" = "a.b.md" :=
  ⟨replaceFinalExtL_append base ext hne hext, by decide, by decide⟩

theorem C7_output_name_roundtrip_witness :
    replaceFinalExtL ("a.b".data ++ '.' :: "docx".data) = "a.b".data ++ ['.', 'm', 'd'] ∧
    replaceFinalExt "X.docx" = "X.md" :=
  ⟨(C7_output_name_roundtrip "a.b".data "docx".data (by decide) (by decide)).1,
   (C7_output_name_roundtrip "a.b".data "docx".data (by decide) (by decide)).2.1⟩

/-- Claim C2: for every non-empty batch of N files, `POST /api/convert`
returns exactly N job handles with pairwise-distinct job ids and creates
exactly N job records; it fails only structurally — a missing or empty
`files` list yields an error and creates nothing. -/
theorem C2_submit_batch_handles (files : List FileRef) (supply : Nat)
    (hne : files ≠ []) :
    convertHandler (some files) supply
      = Except.ok (mkHandles files supply, initJobs files supply, supply + files.length) ∧
    (mkHandles files supply).length = files.length ∧
    (initJobs files supply).length = files.length ∧
    ((mkHandles files supply).map (fun h => h.jobId)).Nodup ∧
    convertHandler none supply = Except.error "No files provided for conversion" ∧
    convertHandler (some ([] : List FileRef)) supply
      = Except.error "No files provided for conversion" := by
  refine ⟨?_, mkHandles_length files supply, initJobs_length files supply, ?_, rfl, rfl⟩
  · unfold convertHandler
    have hemp : files.isEmpty = false := by
      cases files with
      | nil => exact absurd rfl hne
      | cons f fs => rfl
    simp [hemp]
  · rw [mkHandles_ids]
    exact batchIds_nodup files supply

theorem C2_submit_batch_handles_witness :
    convertHandler (some sampleBatch) 0
      = Except.ok (mkHandles sampleBatch 0, initJobs sampleBatch 0, 0 + sampleBatch.length) ∧
    (mkHandles sampleBatch 0).length = sampleBatch.length ∧
    ((mkHandles sampleBatch 0).map (fun h => h.jobId)).Nodup := by
  have h := C2_submit_batch_handles sampleBatch 0 (by decide)
  exact ⟨h.1, h.2.1, h.2.2.2.1⟩

/-- Claim C4: the sequence of `conversion-progress` events emitted for a
single task (its `queued` event followed by the events of its
`processConversion` run) is monotone: status ranks never decrease, and
progress never decreases while the later status is non-terminal; in
particular no subscriber ever sees `completed` followed by `processing`. -/
theorem C4_per_task_event_monotonicity (st : JobStore) (k : Nat) (fid : String)
    (eng : Except String ConvOk) :
    eventChainOk (queuedEvent fid k :: (processConversion st k fid eng).2) = true := by
  cases eng <;> rfl

/-- Claim C8: `convertWithMarkItDown` removes its temporary python script
on every exit path — engine success, engine-reported conversion error,
unparsable engine output, non-zero exit code, and failure to start the
process — and settles its promise exactly once, with the unlink happening
first. -/
theorem C8_adapter_scratch_cleanup (o : SpawnOutcome) :
    (convertWithMarkItDown o).1.head? = some AdapterAction.unlinkTemp ∧
    AdapterAction.unlinkTemp ∈ (convertWithMarkItDown o).1 ∧
    (convertWithMarkItDown o).1.countP AdapterAction.isSettle = 1 := by
  cases o with
  | startFailed m =>
      refine ⟨rfl, by simp [convertWithMarkItDown], ?_⟩
      simp [convertWithMarkItDown, List.countP_cons, AdapterAction.isSettle]
  | closed code parsed stderrText =>
      by_cases hc : code = 0
      · subst hc
        cases parsed with
        | none =>
            refine ⟨rfl, by simp [convertWithMarkItDown], ?_⟩
            simp [convertWithMarkItDown, List.countP_cons, AdapterAction.isSettle]
        | some po =>
            cases po with
            | ok p md =>
                refine ⟨rfl, by simp [convertWithMarkItDown], ?_⟩
                simp [convertWithMarkItDown, List.countP_cons, AdapterAction.isSettle]
            | err m =>
                refine ⟨rfl, by simp [convertWithMarkItDown], ?_⟩
                simp [convertWithMarkItDown, List.countP_cons, AdapterAction.isSettle]
      · refine ⟨?_, ?_, ?_⟩
        · simp [convertWithMarkItDown, hc]
        · simp [convertWithMarkItDown, hc]
        · simp [convertWithMarkItDown, hc, List.countP_cons, AdapterAction.isSettle]

/-- Claim C1: partial failure isolation. For every batch and every
assignment of adapter outcomes, the final record of task `i` is exactly
the terminal transform of its own outcome applied to its own initial
record — hence every task ends in a terminal state (`completed` or
`failed`), and changing any other task's outcome (any `oc'` agreeing with
`oc` on this task's job id) leaves this task's final record unchanged:
one task's failure never prevents the completion of another. -/
theorem C1_partial_failure_isolation (files : List FileRef) (supply : Nat)
    (oc oc' : Nat → Except String ConvOk) (i : Nat) (f : FileRef)
    (hf : files.get? i = some f) (hoc : oc' (supply + i) = oc (supply + i)) :
    getJob (runBatch files supply oc) (supply + i)
      = some (stepTransform (oc (supply + i)) (initJob (supply + i) f)) ∧
    isTerminal (stepTransform (oc (supply + i)) (initJob (supply + i) f)).status = true ∧
    getJob (runBatch files supply oc') (supply + i)
      = getJob (runBatch files supply oc) (supply + i) := by
  have hlt : i < files.length := by
    rcases List.get?_eq_some.mp hf with ⟨h, _⟩
    exact h
  have key : ∀ oc₀ : Nat → Except String ConvOk,
      getJob (runBatch files supply oc₀) (supply + i)
        = some (stepTransform (oc₀ (supply + i)) (initJob (supply + i) f)) := by
    intro oc₀
    unfold runBatch
    rw [dispatchBatch_fst]
    set F := fun j =>
      if j.jobId ∈ (handlePairs files supply).map Prod.fst
      then stepTransform (oc₀ j.jobId) j else j with hFdef
    have hFpres : ∀ j, (F j).jobId = j.jobId := by
      intro j
      by_cases h : j.jobId ∈ (handlePairs files supply).map Prod.fst
      · simp [hFdef, h, stepTransform_jobId]
      · simp [hFdef, h]
    rw [getJob_map_initJobs F hFpres files supply i f hf]
    have hmem : (initJob (supply + i) f).jobId
        ∈ (handlePairs files supply).map Prod.fst := by
      rw [handlePairs_fst]
      exact batchIds_mem files supply i hlt
    simp only [hFdef, hmem, if_true]
    rfl
  refine ⟨key oc, stepTransform_terminal _ _, ?_⟩
  rw [key oc', key oc, hoc]

theorem C1_partial_failure_isolation_witness :
    getJob (runBatch sampleBatch 0 mixedOutcome) (0 + 1)
      = some (stepTransform (mixedOutcome (0 + 1)) (initJob (0 + 1) fileB)) ∧
    isTerminal (stepTransform (mixedOutcome (0 + 1)) (initJob (0 + 1) fileB)).status
      = true := by
  have h := C1_partial_failure_isolation sampleBatch 0 mixedOutcome mixedOutcome
    1 fileB (by decide) rfl
  exact ⟨h.1, h.2.1⟩

/-- Claim C6: the aggregate statistics of `GET /api/jobs` are a pure
projection of the job store at the query instant: `total` is the number
of records, each per-status count is the number of records with that
status, and when every record carries one of the four server statuses the
counts partition the total; the React context's `updateStats` is likewise
a pure projection of its task list. -/
theorem C6_stats_pure_projection (store : JobStore) (tasks : List WTask) :
    (jobsHandler store).2.total = store.length ∧
    (jobsHandler store).2.queued = store.countP (fun j => j.status == Status.queued) ∧
    (jobsHandler store).2.processing
      = store.countP (fun j => j.status == Status.processing) ∧
    (jobsHandler store).2.completed
      = store.countP (fun j => j.status == Status.completed) ∧
    (jobsHandler store).2.failed = store.countP (fun j => j.status == Status.failed) ∧
    ((∀ j ∈ store, j.status = .queued ∨ j.status = .processing ∨
        j.status = .completed ∨ j.status = .failed) →
      (jobsHandler store).2.total
        = (jobsHandler store).2.queued + (jobsHandler store).2.processing
          + (jobsHandler store).2.completed + (jobsHandler store).2.failed) ∧
    (updateStats tasks).total = tasks.length ∧
    (updateStats tasks).completed = tasks.countP (fun t => t.status == Status.completed) := by
  refine ⟨rfl, ?_, ?_, ?_, ?_, ?_, rfl, ?_⟩
  · rw [List.countP_eq_length_filter]
    rfl
  · rw [List.countP_eq_length_filter]
    rfl
  · rw [List.countP_eq_length_filter]
    rfl
  · rw [List.countP_eq_length_filter]
    rfl
  · intro h
    exact counts_partition store h
  · rw [List.countP_eq_length_filter]
    rfl

theorem C6_stats_pure_projection_witness :
    (jobsHandler terminalStore).2.total = terminalStore.length ∧
    (jobsHandler terminalStore).2.total
      = (jobsHandler terminalStore).2.queued + (jobsHandler terminalStore).2.processing
        + (jobsHandler terminalStore).2.completed + (jobsHandler terminalStore).2.failed := by
  have h := C6_stats_pure_projection terminalStore []
  refine ⟨h.1, h.2.2.2.2.2.1 ?_⟩
  intro j hj
  have : j = terminalJob := by
    simpa [terminalStore] using hj
  subst this
  right
  right
  left
  rfl

/-- Claim C3 is false as stated: the claimed iff-invariant fails mid
lifecycle. A server job record carries its `outputPath` from the moment
of creation (status `queued`), and the web-only converter populates
`metadata` (snapshot at progress 90) while the status is still
`processing`. -/
theorem C3_counterexample :
    fieldInvariant (initJob 0 fileA) = false ∧
    (initJob 0 fileA).status = Status.queued ∧
    ((webOnlyConvertTask freshWTask true (Except.ok "hello world") "Downloads").2.all
        (fun t => wInvariant t)) = false ∧
    ((webOnlyConvertTask freshWTask true (Except.ok "hello world") "Downloads").2.any
        (fun t => t.status == Status.processing && t.metadata.isSome)) = true := by
  refine ⟨by decide, rfl, by decide, by decide⟩

/-- Claim C3 (amended): the terminal-state field invariant holds with two
qualifications forced by the code. In the server store, at every point of
a batch's lifecycle, `metadata` is set iff `completed` and `errorDetail`
is set iff `failed`, while `outputReference` is always set (populated at
creation with the planned destination, overwritten with the engine's path
on completion). In the web-only converter the full iff-invariant
(including `outputReference`) holds for the final record of every freshly
created task, whose status is always terminal; transiently, metadata is
populated just before completion. The two terminal states are distinct
and exhaust the terminal statuses. -/
theorem C3_amended_field_invariant
    (files : List FileRef) (supply : Nat) (oc : Nat → Except String ConvOk)
    (t : WTask) (hasFile : Bool) (conv : Except String String) (dir : String)
    (hm : t.metadata = none) (ho : t.outputPath = none) (he : t.errorMessage = none) :
    (∀ s ∈ (dispatchBatch (initJobs files supply) (handlePairs files supply) oc).2,
        ∀ j ∈ s, amendedInvariant j = true) ∧
    wInvariant (webOnlyConvertTask t hasFile conv dir).1 = true ∧
    isTerminal (webOnlyConvertTask t hasFile conv dir).1.status = true ∧
    Status.completed ≠ Status.failed ∧
    (∀ s : Status, isTerminal s = true → s = .completed ∨ s = .failed) := by
  refine ⟨?_, ?_, ?_, by decide, ?_⟩
  · apply dispatch_trace_invariant
    · intro j hj
      exact (initJobs_entry files supply j hj).1
    · intro j hj _
      exact (initJobs_entry files supply j hj).2
    · rw [handlePairs_fst]
      exact batchIds_nodup files supply
  · cases hasFile with
    | false => simp [webOnlyConvertTask, wInvariant, hm, ho, he]
    | true =>
        cases conv with
        | ok content => simp [webOnlyConvertTask, wInvariant, hm, ho, he]
        | error e => simp [webOnlyConvertTask, wInvariant, hm, ho, he]
  · cases hasFile with
    | false => rfl
    | true =>
        cases conv with
        | ok content => rfl
        | error e => rfl
  · intro s hs
    cases s <;> simp_all [isTerminal]

theorem C3_amended_field_invariant_witness :
    amendedInvariant (initJob 0 fileA) = true ∧
    wInvariant (webOnlyConvertTask freshWTask true (Except.error "boom") "Downloads").1
      = true ∧
    isTerminal
      (webOnlyConvertTask freshWTask true (Except.error "boom") "Downloads").1.status
      = true := by
  have h := C3_amended_field_invariant [fileA] 0 (fun _ => Except.ok sampleConv)
    freshWTask true (Except.error "boom") "Downloads" rfl rfl rfl
  refine ⟨?_, h.2.1, h.2.2.1⟩
  exact h.1 (initJobs [fileA] 0) (by decide) (initJob 0 fileA) (by decide)

/-- Claim C5 is false as stated: a batch containing one supported and one
unsupported file does not yield per-task failure — the whole upload
request is aborted by the multer `fileFilter` and surfaces as a single
batch-level `500 Internal server error`; no Task Record is created for
either file, so the supported `report.docx` never proceeds. -/
theorem C5_counterexample :
    submitPipeline mixedUpload 0 = Except.error (500, "Internal server error") ∧
    uploadHandler mixedUpload 0 = Except.error (500, "Internal server error") ∧
    allowedMimes.contains goodFile.mimetype = true := by
  refine ⟨rfl, rfl, by decide⟩

/-- Claim C5 (amended): upload rejection is batch-wide, not per-task.
An unsupported file type makes the whole upload request fail with a
batch-level error response, and no Task Records are created for any file
of that request; within multer's structural limits (at most 10 files,
each at most 100MB) that response is `500 Internal server error` (the
filter's `Unsupported file type` message is not even surfaced, because a
plain `Error` is not a `MulterError`). Multer's limits are likewise
batch-level: a supported file over the 100MB `fileSize` bound fails the
whole request with `400 File too large`, and a batch of more than 10
within-limit supported files fails it with `500 Internal server error`.
Only for a non-empty batch of at most 10 files, each with a supported
type and size at most 100MB, does submission return one handle and one
record per file; conversion-stage failures then surface per task
(claims C1/C2). -/
theorem C5_amended_upload_rejection_is_batchwide (files : List UploadFile)
    (supply : Nat) :
    ((∃ f ∈ files, allowedMimes.contains f.mimetype = false) →
      ∃ resp, submitPipeline files supply = Except.error resp) ∧
    (files.length ≤ 10 → (∀ f ∈ files, f.size ≤ 100 * 1024 * 1024) →
      (∃ f ∈ files, allowedMimes.contains f.mimetype = false) →
      submitPipeline files supply = Except.error (500, "Internal server error")) ∧
    ((∀ f ∈ files, allowedMimes.contains f.mimetype = true) →
      files.length ≤ 10 → (∃ f ∈ files, ¬ f.size ≤ 100 * 1024 * 1024) →
      submitPipeline files supply = Except.error (400, "File too large")) ∧
    ((∀ f ∈ files, allowedMimes.contains f.mimetype = true) →
      (∀ f ∈ files, f.size ≤ 100 * 1024 * 1024) → 10 < files.length →
      submitPipeline files supply = Except.error (500, "Internal server error")) ∧
    (files ≠ [] → files.length ≤ 10 →
      (∀ f ∈ files, allowedMimes.contains f.mimetype = true) →
      (∀ f ∈ files, f.size ≤ 100 * 1024 * 1024) →
      ∃ handles store n, submitPipeline files supply = Except.ok (handles, store, n) ∧
        handles.length = files.length ∧ store.length = files.length) := by
  refine ⟨?_, ?_, ?_, ?_, ?_⟩
  · intro hbad
    obtain ⟨e, he⟩ := multerProcess_any_error files supply 10 hbad
    exact ⟨uploadErrorResponse e, by simp [submitPipeline, uploadHandler, he]⟩
  · intro hlen hsize hbad
    have he := multerProcess_unsupported files supply 10 hlen hsize hbad
    simp [submitPipeline, uploadHandler, he, uploadErrorResponse]
  · intro hmime hlen hbig
    have he := multerProcess_oversize files supply 10 hlen hmime hbig
    simp [submitPipeline, uploadHandler, he, uploadErrorResponse]
  · intro hmime hsize hlen
    have he := multerProcess_overcount files supply 10 hlen hmime hsize
    simp [submitPipeline, uploadHandler, he, uploadErrorResponse]
  · intro hne hlen hmime hsize
    obtain ⟨recs, hr, hl⟩ := multerProcess_good files supply 10 hlen hmime hsize
    have hrecsne : recs.isEmpty = false := by
      cases recs with
      | nil =>
          exfalso
          apply hne
          cases files with
          | nil => rfl
          | cons f fs => simp at hl
      | cons r rs => rfl
    have hmapne : (recs.map toFileRef).isEmpty = false := by
      cases recs with
      | nil => simp at hrecsne
      | cons r rs => rfl
    refine ⟨mkHandles (recs.map toFileRef) (supply + files.length),
      initJobs (recs.map toFileRef) (supply + files.length),
      supply + files.length + (recs.map toFileRef).length, ?_, ?_, ?_⟩
    · simp [submitPipeline, uploadHandler, hr, hrecsne, convertHandler, hmapne]
    · rw [mkHandles_length]
      simp [hl]
    · rw [initJobs_length]
      simp [hl]

theorem C5_amended_upload_rejection_is_batchwide_witness :
    submitPipeline mixedUpload 0 = Except.error (500, "Internal server error") ∧
    isOkE (submitPipeline [goodFile] 0) = true := by
  constructor
  · exact (C5_amended_upload_rejection_is_batchwide mixedUpload 0).2.1
      (by decide) (by decide) ⟨badFile, by decide, by decide⟩
  · obtain ⟨handles, store, n, heq, _, _⟩ :=
      (C5_amended_upload_rejection_is_batchwide [goodFile] 0).2.2.2.2
        (by decide) (by decide) (by decide) (by decide)
    rw [heq]
    rfl

/-- Claim C9 is false as stated: subscribing (`join-file`) to a task that
is already terminal and still retained delivers no snapshot at all — the
handler only records room membership — so the subscriber receives the
terminal snapshot zero times, not exactly once. -/
theorem C9_counterexample :
    (getJob terminalStore 0).map (fun j => j.status) = some Status.completed ∧
    (handleJoinFile terminalStore [] 7 "f1").2 = [] ∧
    (handleJoinFile terminalStore [] 7 "f1").2.countP
      (fun e => e.status == Status.completed) = 0 := by
  refine ⟨by decide, rfl, rfl⟩

/-- Claim C9 (amended): a late subscriber receives nothing on subscribe —
for every job store, room list, socket and file id, the `join-file`
handler emits no event and only adds the room membership; the last known
(terminal) state of a retained record is available only by polling
`GET /api/status/:jobId`, which returns exactly the stored record. -/
theorem C9_amended_late_subscribe_silent (store : JobStore)
    (rooms : List (Nat × String)) (sid : Nat) (fid : String) :
    (handleJoinFile store rooms sid fid).2 = [] ∧
    (handleJoinFile store rooms sid fid).1 = (sid, "file-" ++ fid) :: rooms ∧
    (∀ k j, getJob store k = some j → statusHandler store k = Except.ok j) := by
  refine ⟨rfl, rfl, ?_⟩
  intro k j h
  unfold statusHandler
  rw [h]

theorem C9_amended_late_subscribe_silent_witness :
    (handleJoinFile terminalStore [] 7 "f1").2 = [] ∧
    statusHandler terminalStore 0 = Except.ok terminalJob := by
  have h := C9_amended_late_subscribe_silent terminalStore [] 7 "f1"
  exact ⟨h.1, h.2.2 0 terminalJob (by decide)⟩

/-- Claim C10: publication is broadcast-to-all. `io.emit` delivers every
`conversion-progress` event to every connected socket and never consults
the room memberships maintained by `join-file`/`leave-file`; filtering
happens only client-side, where the listener invokes solely the callback
registered under the event's `fileId` (and none when no callback is
registered for it). -/
theorem C10_broadcast_to_all_unscoped (connected : List Nat)
    (rooms rooms' : List (Nat × String)) (ev : ProgressEvent)
    (cbs : List (String × Nat)) (c : Nat) :
    ioEmit ⟨connected, rooms⟩ ev = ioEmit ⟨connected, rooms'⟩ ev ∧
    (∀ sid ∈ connected, (sid, ev) ∈ ioEmit ⟨connected, rooms⟩ ev) ∧
    (clientDispatch cbs ev = some c → (ev.fileId, c) ∈ cbs) ∧
    ((∀ p ∈ cbs, p.1 ≠ ev.fileId) → clientDispatch cbs ev = none) := by
  refine ⟨rfl, ?_, ?_, ?_⟩
  · intro sid h
    exact List.mem_map_of_mem _ h
  · intro h
    unfold clientDispatch at h
    cases hf : List.find? (fun p => p.1 == ev.fileId) cbs with
    | none =>
        rw [hf] at h
        simp at h
    | some p =>
        rw [hf] at h
        simp only [Option.map_some'] at h
        have hp := List.mem_of_find?_eq_some hf
        have hpe := List.find?_some hf
        have h1 : p.1 = ev.fileId := by simpa using hpe
        have h2 : (ev.fileId, c) = p := by
          cases p with
          | mk a b =>
              simp at h1 h
              simp [h1, h]
        rw [h2]
        exact hp
  · intro h
    unfold clientDispatch
    have : List.find? (fun p => p.1 == ev.fileId) cbs = none := by
      rw [List.find?_eq_none]
      intro p hp
      simp [h p hp]
    rw [this]
    rfl

theorem C10_broadcast_to_all_unscoped_witness :
    ioEmit ⟨[1, 2], []⟩ (queuedEvent "a" 0)
      = ioEmit ⟨[1, 2], [(1, "file-x")]⟩ (queuedEvent "a" 0) ∧
    (1, queuedEvent "a" 0) ∈ ioEmit ⟨[1, 2], []⟩ (queuedEvent "a" 0) ∧
    ((queuedEvent "a" 0).fileId, 5) ∈ [("a", 5)] := by
  have h := C10_broadcast_to_all_unscoped [1, 2] [] [(1, "file-x")]
    (queuedEvent "a" 0) [("a", 5)] 5
  exact ⟨h.1, h.2.1 1 (by decide), h.2.2.1 (by decide)⟩
